import Mathlib

/-!
Verification development for `scripts/pin_github_actions.py`.

The script has two cores:
* `resolve_sha(owner, repo, ref)` — a three-step GitHub API fallback chain that
  maps a mutable ref to a commit identifier;
* `process_file(path)` — a line-oriented rewriter that pins `owner/repo@ref`
  action references to resolved commit identifiers, inserting an audit comment.

The embedding below models the network as a function from a URL to the pair
(parsed JSON body, HTTP status).  The Python code only ever inspects a response
body through `json.loads`, so the body component is the JSON parse result
(`none` = the body failed to parse).  A status of `none` models a transport
error (`urlopen` raised something other than `HTTPError`, in which case the
Python helper returns `(str(e), None)`).
-/

/-- Python values produced by `json.loads`.  Numbers are modelled as integers
(no claim exercises floating point). -/
inductive Json where
  | null : Json
  | bool : Bool → Json
  | num : Int → Json
  | str : String → Json
  | arr : List Json → Json
  | obj : List (String × Json) → Json

/-- Python `d.get(k)` on a parsed JSON value.  The outer `none` models the
`AttributeError` raised when the value is not a dict (caught by the script's
`except Exception` handlers).  A present key whose value is JSON `null` is
indistinguishable in Python from an absent key (both give `None`), so both are
mapped to `some none`.  `json.loads` keeps the last of duplicate keys, hence
the reversed lookup. -/
def Json.get? : Json → String → Option (Option Json)
  | .obj l, k =>
    match l.reverse.lookup k with
    | some Json.null => some none
    | some v => some (some v)
    | none => some none
  | _, _ => none

/-- Python truthiness of a JSON-derived value (`if obj_sha:`, `if tag:`). -/
def pyTruthy : Json → Bool
  | .null => false
  | .bool b => b
  | .num n => n != 0
  | .str s => s != ""
  | .arr l => !l.isEmpty
  | .obj l => !l.isEmpty

/-- Rendering of container values, mirroring Python `repr` for lists and
dicts (string quoting inside containers is simplified: the single-quote style
is used and escapes are not reproduced; no theorem below depends on the
container cases). -/
def pyRepr : Json → String
  | .null => "None"
  | .bool b => cond b "True" "False"
  | .num n => toString n
  | .str s => "'" ++ s ++ "'"
  | .arr l => "[" ++ String.intercalate ", " (l.attach.map (fun ⟨x, hx⟩ => pyRepr x)) ++ "]"
  | .obj l =>
    "\x7b" ++
      String.intercalate ", "
        (l.attach.map (fun ⟨⟨k, v⟩, hm⟩ => "'" ++ k ++ "': " ++ pyRepr v)) ++ "\x7d"
decreasing_by
  · have h := List.sizeOf_lt_of_mem hx
    simp only [Json.arr.sizeOf_spec]
    omega
  · have h := List.sizeOf_lt_of_mem hm
    simp only [Prod.mk.sizeOf_spec] at h
    simp only [Json.obj.sizeOf_spec]
    omega

/-- Python `str()` of a JSON-derived value, as used by the script's f-strings
(`f'.../git/tags/{obj_sha}'`, `f'@{sha}'`). -/
def pyStr : Json → String
  | .null => "None"
  | .bool b => cond b "True" "False"
  | .num n => toString n
  | .str s => s
  | .arr l => pyRepr (Json.arr l)
  | .obj l => pyRepr (Json.obj l)

/-- Python `s.startswith(pre)`. -/
def pyStartsWith (s pre : String) : Bool :=
  pre.data.isPrefixOf s.data

/-- A network: URL ↦ (JSON parse of the response body, HTTP status). -/
def Net : Type := String → Option Json × Option Nat

/-- The accepted URL prefix from `gh_api_get`'s security check. -/
def apiBase : String := "https://api.github.com/"

/-- `gh_api_get(url)`.  Rejects (raises `ValueError`, modelled as `.error`)
any URL not starting with the GitHub API origin, before consulting the
network; otherwise returns the response. -/
def gh_api_get (net : Net) (url : String) : Except String (Option Json × Option Nat) :=
  if pyStartsWith url apiBase then Except.ok (net url)
  else Except.error ("Invalid GitHub API URL: " ++ url)

/-- `f'https://api.github.com/repos/{owner}/{repo}/commits/{ref}'` -/
def commitsUrl (owner repo ref : String) : String :=
  "https://api.github.com/" ++ ("repos/" ++ owner ++ "/" ++ repo ++ "/commits/" ++ ref)

/-- `f'https://api.github.com/repos/{owner}/{repo}/git/ref/tags/{ref}'` -/
def tagRefUrl (owner repo ref : String) : String :=
  "https://api.github.com/" ++ ("repos/" ++ owner ++ "/" ++ repo ++ "/git/ref/tags/" ++ ref)

/-- `f'https://api.github.com/repos/{owner}/{repo}/git/tags/{obj_sha}'` -/
def tagObjUrl (owner repo objSha : String) : String :=
  "https://api.github.com/" ++ ("repos/" ++ owner ++ "/" ++ repo ++ "/git/tags/" ++ objSha)

/-- `f'https://api.github.com/repos/{owner}/{repo}/releases/tags/{ref}'` -/
def releasesUrl (owner repo ref : String) : String :=
  "https://api.github.com/" ++ ("repos/" ++ owner ++ "/" ++ repo ++ "/releases/tags/" ++ ref)

/-- Step 3 of `resolve_sha`: the `releases/tags/{ref}` block.  Every failure
path inside the block (`except Exception: pass`, falsy `tag`, non-200 inner
status) falls through to the final `return None`. -/
def resolveStep3 (net : Net) (owner repo ref : String) : Except String (Option Json) :=
  match gh_api_get net (releasesUrl owner repo ref) with
  | .error e => .error e
  | .ok (body, code) =>
    if code = some 200 then
      match body with
      | none => .ok none
      | some j =>
        match j.get? "tag_name" with
        | none => .ok none
        | some tagOpt =>
          match tagOpt with
          | none => .ok none
          | some tag =>
            if pyTruthy tag then
              match gh_api_get net (tagRefUrl owner repo (pyStr tag)) with
              | .error _ => .ok none
              | .ok (body2, code2) =>
                if code2 = some 200 then
                  match body2 with
                  | none => .ok none
                  | some j2 =>
                    match j2.get? "object" with
                    | none => .ok none
                    | some oOpt =>
                      match (oOpt.getD (Json.obj [])).get? "sha" with
                      | none => .ok none
                      | some s => .ok s
                else .ok none
            else .ok none
    else .ok none

/-- Step 2 of `resolve_sha`: the `git/ref/tags/{ref}` block.  A failure before
`obj_sha` is established (non-200 status, parse failure, `AttributeError`,
falsy `obj_sha`) falls through to step 3.  Once a truthy `obj_sha` exists the
block always returns: the commit identifier found inside the tag object when
the second lookup works, otherwise `obj_sha` itself. -/
def resolveStep2 (net : Net) (owner repo ref : String) : Except String (Option Json) :=
  match gh_api_get net (tagRefUrl owner repo ref) with
  | .error e => .error e
  | .ok (body, code) =>
    if code = some 200 then
      match body with
      | none => resolveStep3 net owner repo ref
      | some j =>
        match j.get? "object" with
        | none => resolveStep3 net owner repo ref
        | some objOpt =>
          match (objOpt.getD (Json.obj [])).get? "sha" with
          | none => resolveStep3 net owner repo ref
          | some objShaOpt =>
            match objShaOpt with
            | none => resolveStep3 net owner repo ref
            | some objSha =>
              if pyTruthy objSha then
                match gh_api_get net (tagObjUrl owner repo (pyStr objSha)) with
                | .error _ => resolveStep3 net owner repo ref
                | .ok (body2, code2) =>
                  if code2 = some 200 then
                    match body2 with
                    | none => .ok (some objSha)
                    | some j2 =>
                      match j2.get? "object" with
                      | none => .ok (some objSha)
                      | some oOpt =>
                        match (oOpt.getD (Json.obj [])).get? "sha" with
                        | none => .ok (some objSha)
                        | some oShaOpt =>
                          match oShaOpt with
                          | none => .ok (some objSha)
                          | some v =>
                            if pyTruthy v then .ok (some v) else .ok (some objSha)
                  else .ok (some objSha)
              else resolveStep3 net owner repo ref
    else resolveStep3 net owner repo ref

/-- `resolve_sha(owner, repo, ref)`.  Step 1: the commits endpoint.  On a 200
response whose body parses to a dict, the script returns
`json.loads(body).get('sha')` directly (even when that is `None`); only a
parse failure or `AttributeError` falls through to step 2. -/
def resolve_sha (net : Net) (owner repo ref : String) : Except String (Option Json) :=
  match gh_api_get net (commitsUrl owner repo ref) with
  | .error e => .error e
  | .ok (body, code) =>
    if code = some 200 then
      match body with
      | none => resolveStep2 net owner repo ref
      | some j =>
        match j.get? "sha" with
        | none => resolveStep2 net owner repo ref
        | some s => .ok s
    else resolveStep2 net owner repo ref

/-! ## The manifest rewriter (`process_file`) -/

/-- ASCII whitespace as matched by the regex class `\s` (Unicode whitespace
beyond ASCII is not modelled; no workflow line in scope contains any). -/
def pySpace (c : Char) : Bool :=
  c = ' ' || c = '\t' || c = '\n' || c = '\r' || c = '\x0b' || c = '\x0c'

/-- Case-insensitive character comparison, for `re.IGNORECASE`. -/
def ciEq (c p : Char) : Bool := c.toLower = p.toLower

/-- A character admissible in the `action` group `[^@\s]+`. -/
def actCh (c : Char) : Bool := !(pySpace c) && c != '@'

/-- A character admissible in the `ref` group `\S+`. -/
def refCh (c : Char) : Bool := !(pySpace c)

/-- The literal part `uses:` of the line pattern. -/
def usesPat : List Char := ['u', 's', 'e', 's', ':']

/-- Match a literal pattern case-insensitively at the head of the input,
returning the consumed characters (in original case) and the remainder. -/
def matchKw : List Char → List Char → Option (List Char × List Char)
  | [], l => some ([], l)
  | _ :: _, [] => none
  | p :: ps, c :: cs =>
    if ciEq c p then
      match matchKw ps cs with
      | some (m, r) => some (c :: m, r)
      | none => none
    else none

/-- The groups of a successful match of
`^(?P<indent>\s*)(?P<prefix>-?\s*uses:\s*)(?P<action>[^@\s]+)@(?P<ref>\S+)`
(with `re.IGNORECASE`), plus the unmatched remainder of the line.  The
`prefix` group is called `pfx` here. -/
structure UsesGroups where
  indent : List Char
  pfx : List Char
  action : List Char
  ref : List Char
  rest : List Char
deriving DecidableEq

/-- The part of the pattern after `\s*-?`: `\s*uses:\s*` then the `action`,
`@`, and `ref` groups.  `indent` and `dash` are what the wrapper already
consumed; `r2` is the remaining input. -/
def pyMatchCore (indent dash r2 : List Char) : Option UsesGroups :=
  let ws2 := r2.takeWhile pySpace
  let r3 := r2.dropWhile pySpace
  match matchKw usesPat r3 with
  | none => none
  | some (kw, r4) =>
    let ws3 := r4.takeWhile pySpace
    let r5 := r4.dropWhile pySpace
    let act := r5.takeWhile actCh
    let r6 := r5.dropWhile actCh
    if act = [] then none
    else if r6.head? = some '@' then
      let rf := r6.tail.takeWhile refCh
      let r8 := r6.tail.dropWhile refCh
      if rf = [] then none
      else some ⟨indent, dash ++ ws2 ++ kw ++ ws3, act, rf, r8⟩
    else none

/-- `pattern.match(ln)`.  The pattern is effectively deterministic: each
greedy sub-pattern (`\s*`, `-?`, `[^@\s]+`, `\S+`) is followed by material its
own characters can never satisfy, so maximal munch never needs backtracking. -/
def pyMatch (ln : String) : Option UsesGroups :=
  let cs := ln.data
  let indent := cs.takeWhile pySpace
  let r1 := cs.dropWhile pySpace
  if r1.head? = some '-' then pyMatchCore indent ['-'] r1.tail
  else pyMatchCore indent [] r1

/-- `re.fullmatch(r'[0-9a-f]{40}', ref, re.IGNORECASE)`. -/
def isHexCh (c : Char) : Bool :=
  ('0' ≤ c && c ≤ '9') || ('a' ≤ c && c ≤ 'f') || ('A' ≤ c && c ≤ 'F')

/-- The already-pinned test: exactly 40 hex characters, either case. -/
def isHex40 (l : List Char) : Bool :=
  l.length = 40 && l.all isHexCh

/-- `re.sub(r'@(\S+)', '@' ++ repl, ln, count=1)`: replace the leftmost
occurrence of `@` followed by a nonempty run of non-whitespace with
`@` ++ `repl` (the replacement text is inserted literally; the resolved
values substituted by the script never contain replacement-template
backslashes). -/
def subFirstList (repl : List Char) : List Char → List Char
  | [] => []
  | c :: cs =>
    if c = '@' then
      match cs with
      | [] => [c]
      | d :: ds =>
        if pySpace d then c :: subFirstList repl cs
        else c :: (repl ++ (d :: ds).dropWhile refCh)
    else c :: subFirstList repl cs

/-- The per-line body of `process_file`'s loop: returns the lines appended to
`out` for this input line, and whether the line was rewritten.  The resolver
is passed in as a function `R owner repo ref`, matching the call
`resolve_sha(owner, repo, ref)`; `none` models the falsy `sha` case. -/
def processLine (R : String → String → String → Option Json) (ln : String) :
    List String × Bool :=
  match pyMatch ln with
  | none => ([ln], false)
  | some g =>
    if List.isPrefixOf ['.'] g.action || List.isPrefixOf ['.', '/'] g.action then
      ([ln], false)
    else if isHex40 g.ref then ([ln], false)
    else if !(g.action.contains '/') then ([ln], false)
    else
      let owner : String := ⟨g.action.takeWhile (fun c => c != '/')⟩
      let repo : String := ⟨(g.action.dropWhile (fun c => c != '/')).tail⟩
      match R owner repo ⟨g.ref⟩ with
      | none => ([ln], false)
      | some sha =>
        if pyTruthy sha then
          ([⟨g.indent ++ "# original uses: ".data ++ g.action ++ '@' :: g.ref ++ ['\n']⟩,
            ⟨subFirstList (pyStr sha).data ln.data⟩], true)
        else ([ln], false)

/-- The whole loop of `process_file`: the output line list and the `changed`
flag. -/
def processLines (R : String → String → String → Option Json) :
    List String → List String × Bool
  | [] => ([], false)
  | ln :: rest =>
    let p := processLine R ln
    let q := processLines R rest
    (p.1 ++ q.1, p.2 || q.2)

/-- `process_file` including its write behaviour: result lines, the `changed`
flag, and the file writes performed ((path, content) pairs, in order).  The
backup is written first, then the rewritten file; nothing is written when
`changed` is false. -/
def processFile (R : String → String → String → Option Json)
    (path : String) (lines : List String) :
    (List String × Bool) × List (String × List String) :=
  let p := processLines R lines
  (p, if p.2 then [(path ++ ".bak", lines), (path, p.1)] else [])

/-! ## Helper lemmas -/

theorem isPrefixOf_append_self (l t : List Char) : List.isPrefixOf l (l ++ t) = true := by
  induction l with
  | nil => simp [List.isPrefixOf]
  | cons c cs ih => simpa [List.isPrefixOf] using ih

theorem pyStartsWith_append (t : String) :
    pyStartsWith ("https://api.github.com/" ++ t) apiBase = true := by
  simp only [pyStartsWith, apiBase, String.data_append]
  exact isPrefixOf_append_self _ _

/-- All four URLs built by the resolver pass `gh_api_get`'s origin check, so
the `ValueError` branch is unreachable from `resolve_sha`. -/
theorem gh_api_get_api (net : Net) (t : String) :
    gh_api_get net ("https://api.github.com/" ++ t) = Except.ok (net ("https://api.github.com/" ++ t)) := by
  simp [gh_api_get, pyStartsWith_append]

theorem mem_takeWhile_pred {p : Char → Bool} {l : List Char} {c : Char}
    (h : c ∈ l.takeWhile p) : p c = true := by
  induction l with
  | nil => simp at h
  | cons x xs ih =>
    rw [List.takeWhile_cons] at h
    by_cases hx : p x = true
    · simp only [hx, if_pos] at h
      rcases List.mem_cons.mp h with rfl | h
      · exact hx
      · exact ih h
    · simp [hx] at h

theorem dropWhile_head_pred {p : Char → Bool} {l : List Char} {c : Char} {t : List Char}
    (h : l.dropWhile p = c :: t) : p c = false := by
  have := List.head?_dropWhile_not p l
  rw [h] at this
  exact this

theorem dropWhile_of_head_neg {p : Char → Bool} {l : List Char}
    (h : l = [] ∨ ∃ d ds, l = d :: ds ∧ p d = false) : l.dropWhile p = l := by
  rcases h with rfl | ⟨d, ds, rfl, hd⟩
  · rfl
  · simp [List.dropWhile_cons, hd]

theorem takeWhile_of_head_neg {p : Char → Bool} {l : List Char}
    (h : l = [] ∨ ∃ d ds, l = d :: ds ∧ p d = false) : l.takeWhile p = [] := by
  rcases h with rfl | ⟨d, ds, rfl, hd⟩
  · rfl
  · simp [List.takeWhile_cons, hd]

/-- A whitespace character is one of six concrete ASCII characters. -/
theorem pySpace_cases {c : Char} (h : pySpace c = true) :
    c = ' ' ∨ c = '\t' ∨ c = '\n' ∨ c = '\r' ∨ c = '\x0b' ∨ c = '\x0c' := by
  simp only [pySpace, Bool.or_eq_true, decide_eq_true_eq] at h
  tauto

/-- Characters matched case-insensitively against `uses:` are not whitespace,
not `@`, not `-`, and not `#`. -/
theorem ciEq_usesPat_props {c p : Char} (hp : p ∈ usesPat) (h : ciEq c p = true) :
    pySpace c = false ∧ c ≠ '@' ∧ c ≠ '-' ∧ c ≠ '#' := by
  simp only [usesPat, List.mem_cons, List.not_mem_nil, or_false] at hp
  simp only [ciEq, decide_eq_true_eq] at h
  refine ⟨?_, ?_, ?_, ?_⟩
  · by_contra hs
    rw [Bool.not_eq_false] at hs
    rcases pySpace_cases hs with rfl | rfl | rfl | rfl | rfl | rfl <;>
      rcases hp with rfl | rfl | rfl | rfl | rfl <;> simp_all <;> revert h <;> decide
  · rintro rfl
    rcases hp with rfl | rfl | rfl | rfl | rfl <;> revert h <;> decide
  · rintro rfl
    rcases hp with rfl | rfl | rfl | rfl | rfl <;> revert h <;> decide
  · rintro rfl
    rcases hp with rfl | rfl | rfl | rfl | rfl <;> revert h <;> decide

/-- Hex characters are not whitespace and not `@`. -/
theorem isHexCh_props {c : Char} (h : isHexCh c = true) :
    pySpace c = false ∧ c ≠ '@' := by
  constructor
  · by_contra hs
    rw [Bool.not_eq_false] at hs
    rcases pySpace_cases hs with rfl | rfl | rfl | rfl | rfl | rfl <;> revert h <;> decide
  · rintro rfl
    revert h
    decide

theorem matchKw_decomp {pat m r : List Char} :
    ∀ {l : List Char}, matchKw pat l = some (m, r) →
      l = m ++ r ∧ List.Forall₂ (fun c p => ciEq c p = true) m pat := by
  induction pat generalizing m r with
  | nil =>
    intro l h
    simp only [matchKw] at h
    cases h
    exact ⟨rfl, List.Forall₂.nil⟩
  | cons p ps ih =>
    intro l h
    match l with
    | [] => simp [matchKw] at h
    | c :: cs =>
      simp only [matchKw] at h
      by_cases hc : ciEq c p = true
      · rw [if_pos hc] at h
        rcases hk : matchKw ps cs with _ | ⟨m', r'⟩
        · rw [hk] at h; simp at h
        · rw [hk] at h
          simp only [Option.some.injEq, Prod.mk.injEq] at h
          obtain ⟨rfl, rfl⟩ : c :: m' = m ∧ r' = r := ⟨h.1, h.2⟩
          obtain ⟨hd, hf⟩ := ih hk
          exact ⟨by simp [hd], List.Forall₂.cons hc hf⟩
      · rw [if_neg hc] at h; cases h

theorem matchKw_of_forall {pat m : List Char}
    (hf : List.Forall₂ (fun c p => ciEq c p = true) m pat) (r : List Char) :
    matchKw pat (m ++ r) = some (m, r) := by
  induction hf with
  | nil => rfl
  | cons hc _ ih =>
    simp only [List.cons_append, matchKw, if_pos hc, List.append_eq, ih]

theorem head?_some_decomp {l : List Char} {a : Char} (h : l.head? = some a) :
    l = a :: l.tail := by
  cases l with
  | nil => simp at h
  | cons x xs => simp at h; simp [h]

/-- Well-formedness of the groups of a successful match, in terms of the
four pieces making up the `prefix` group. -/
def GroupsWF (g : UsesGroups) (dash ws2 kw ws3 : List Char) : Prop :=
  g.pfx = dash ++ ws2 ++ kw ++ ws3
  ∧ (∀ c ∈ g.indent, pySpace c = true)
  ∧ (dash = ['-'] ∨ (dash = [] ∧ ws2 = []))
  ∧ (∀ c ∈ ws2, pySpace c = true)
  ∧ List.Forall₂ (fun c p => ciEq c p = true) kw usesPat
  ∧ (∀ c ∈ ws3, pySpace c = true)
  ∧ g.action ≠ [] ∧ (∀ c ∈ g.action, actCh c = true)
  ∧ g.ref ≠ [] ∧ (∀ c ∈ g.ref, refCh c = true)
  ∧ (g.rest = [] ∨ ∃ d ds, g.rest = d :: ds ∧ pySpace d = true)

theorem takeWhile_dropWhile_nil (p : Char → Bool) (l : List Char) :
    (l.dropWhile p).takeWhile p = [] := by
  rcases hd : l.dropWhile p with _ | ⟨c, t⟩
  · rfl
  · simp [List.takeWhile_cons, dropWhile_head_pred hd]

/-- A successful core match decomposes the remaining input into groups
satisfying the character-class constraints of the pattern. -/
theorem pyMatchCore_sound {indent dash r2 : List Char} {g : UsesGroups}
    (h : pyMatchCore indent dash r2 = some g) :
    ∃ ws2 kw ws3,
      g.indent = indent
      ∧ g.pfx = dash ++ ws2 ++ kw ++ ws3
      ∧ r2 = ws2 ++ kw ++ ws3 ++ g.action ++ '@' :: (g.ref ++ g.rest)
      ∧ ws2 = r2.takeWhile pySpace
      ∧ List.Forall₂ (fun c p => ciEq c p = true) kw usesPat
      ∧ (∀ c ∈ ws3, pySpace c = true)
      ∧ g.action ≠ [] ∧ (∀ c ∈ g.action, actCh c = true)
      ∧ g.ref ≠ [] ∧ (∀ c ∈ g.ref, refCh c = true)
      ∧ (g.rest = [] ∨ ∃ d ds, g.rest = d :: ds ∧ pySpace d = true) := by
  simp only [pyMatchCore] at h
  split at h
  · cases h
  · rename_i kw r4 hk
    by_cases hact : (r4.dropWhile pySpace).takeWhile actCh = []
    · rw [if_pos hact] at h; cases h
    · rw [if_neg hact] at h
      by_cases hat : ((r4.dropWhile pySpace).dropWhile actCh).head? = some '@'
      · rw [if_pos hat] at h
        by_cases href : ((r4.dropWhile pySpace).dropWhile actCh).tail.takeWhile refCh = []
        · rw [if_pos href] at h; cases h
        · rw [if_neg href] at h
          injection h with h
          subst h
          refine ⟨r2.takeWhile pySpace, kw, r4.takeWhile pySpace, rfl, rfl, ?_, rfl,
            (matchKw_decomp hk).2, fun c hc => mem_takeWhile_pred hc, hact,
            fun c hc => mem_takeWhile_pred hc, href,
            fun c hc => mem_takeWhile_pred hc, ?_⟩
          · have e1 : r2.takeWhile pySpace ++ (kw ++ r4) = r2 := by
              rw [← (matchKw_decomp hk).1]
              exact List.takeWhile_append_dropWhile pySpace r2
            have e2 : r4.takeWhile pySpace ++ r4.dropWhile pySpace = r4 :=
              List.takeWhile_append_dropWhile pySpace r4
            have e3 : (r4.dropWhile pySpace).takeWhile actCh ++
                (r4.dropWhile pySpace).dropWhile actCh = r4.dropWhile pySpace :=
              List.takeWhile_append_dropWhile actCh (r4.dropWhile pySpace)
            have e4 : (r4.dropWhile pySpace).dropWhile actCh =
                '@' :: ((r4.dropWhile pySpace).dropWhile actCh).tail :=
              head?_some_decomp hat
            have e5 : ((r4.dropWhile pySpace).dropWhile actCh).tail.takeWhile refCh ++
                ((r4.dropWhile pySpace).dropWhile actCh).tail.dropWhile refCh =
                ((r4.dropWhile pySpace).dropWhile actCh).tail :=
              List.takeWhile_append_dropWhile refCh _
            simp only [List.append_assoc]
            rw [e5, ← e4, e3, e2]
            exact e1.symm
          · rcases hd : ((r4.dropWhile pySpace).dropWhile actCh).tail.dropWhile refCh
                with _ | ⟨d, ds⟩
            · exact Or.inl rfl
            · refine Or.inr ⟨d, ds, rfl, ?_⟩
              have := dropWhile_head_pred hd
              simpa [refCh] using this
      · rw [if_neg hat] at h; cases h

/-- A successful match of a whole line: decomposition plus well-formedness. -/
theorem pyMatch_sound {ln : String} {g : UsesGroups} (h : pyMatch ln = some g) :
    ∃ dash ws2 kw ws3,
      ln.data = g.indent ++ g.pfx ++ g.action ++ '@' :: (g.ref ++ g.rest)
      ∧ GroupsWF g dash ws2 kw ws3 := by
  simp only [pyMatch] at h
  by_cases hdash : (ln.data.dropWhile pySpace).head? = some '-'
  · rw [if_pos hdash] at h
    obtain ⟨ws2, kw, ws3, hind, hpfx, hdec, hws2tw, hkw, hws3, hane, hac, hrne, hrc, hrest⟩ :=
      pyMatchCore_sound h
    refine ⟨['-'], ws2, kw, ws3, ?_, hpfx, ?_, Or.inl rfl, ?_, hkw, hws3, hane, hac, hrne, hrc, hrest⟩
    · have e0 : ln.data.takeWhile pySpace ++ ln.data.dropWhile pySpace = ln.data :=
        List.takeWhile_append_dropWhile pySpace ln.data
      have e1 : ln.data.dropWhile pySpace = '-' :: (ln.data.dropWhile pySpace).tail :=
        head?_some_decomp hdash
      calc ln.data = ln.data.takeWhile pySpace ++ ln.data.dropWhile pySpace := e0.symm
        _ = ln.data.takeWhile pySpace ++ ('-' :: (ln.data.dropWhile pySpace).tail) := by rw [← e1]
        _ = _ := by rw [hdec, hind, hpfx]; simp [List.append_assoc]
    · intro c hc
      rw [hind] at hc
      exact mem_takeWhile_pred hc
    · intro c hc
      rw [hws2tw] at hc
      exact mem_takeWhile_pred hc
  · rw [if_neg hdash] at h
    obtain ⟨ws2, kw, ws3, hind, hpfx, hdec, hws2tw, hkw, hws3, hane, hac, hrne, hrc, hrest⟩ :=
      pyMatchCore_sound h
    have hws2nil : ws2 = [] := by
      rw [hws2tw]
      exact takeWhile_dropWhile_nil pySpace ln.data
    refine ⟨[], ws2, kw, ws3, ?_, hpfx, ?_, Or.inr ⟨rfl, hws2nil⟩, ?_, hkw, hws3, hane, hac,
      hrne, hrc, hrest⟩
    · have e0 : ln.data.takeWhile pySpace ++ ln.data.dropWhile pySpace = ln.data :=
        List.takeWhile_append_dropWhile pySpace ln.data
      calc ln.data = ln.data.takeWhile pySpace ++ ln.data.dropWhile pySpace := e0.symm
        _ = _ := by rw [hdec, hind, hpfx]; simp [List.append_assoc]
    · intro c hc
      rw [hind] at hc
      exact mem_takeWhile_pred hc
    · intro c hc
      rw [hws2tw] at hc
      exact mem_takeWhile_pred hc

theorem actCh_space {c : Char} (h : actCh c = true) : pySpace c = false := by
  simp only [actCh, Bool.and_eq_true, Bool.not_eq_eq_eq_not, Bool.not_true] at h
  exact h.1

theorem refCh_space {c : Char} (h : refCh c = true) : pySpace c = false := by
  simp only [refCh, Bool.not_eq_eq_eq_not, Bool.not_true] at h
  exact h

/-- Reconstruction: running the core matcher on input reassembled from
well-formed groups (with an arbitrary well-formed `ref` part) succeeds and
returns exactly those groups. -/
theorem pyMatchCore_complete
    (indent dash ws2 kw ws3 act rf rest : List Char)
    (hws2 : ∀ c ∈ ws2, pySpace c = true)
    (hkw : List.Forall₂ (fun c p => ciEq c p = true) kw usesPat)
    (hws3 : ∀ c ∈ ws3, pySpace c = true)
    (hane : act ≠ []) (hac : ∀ c ∈ act, actCh c = true)
    (hrne : rf ≠ []) (hrc : ∀ c ∈ rf, refCh c = true)
    (hrest : rest = [] ∨ ∃ d ds, rest = d :: ds ∧ pySpace d = true) :
    pyMatchCore indent dash (ws2 ++ (kw ++ (ws3 ++ (act ++ '@' :: (rf ++ rest)))))
      = some ⟨indent, dash ++ ws2 ++ kw ++ ws3, act, rf, rest⟩ := by
  obtain ⟨a0, as, rfl⟩ : ∃ a0 as, act = a0 :: as := by
    cases act with
    | nil => exact absurd rfl hane
    | cons x xs => exact ⟨x, xs, rfl⟩
  obtain ⟨f0, fs, rfl⟩ : ∃ f0 fs, rf = f0 :: fs := by
    cases rf with
    | nil => exact absurd rfl hrne
    | cons x xs => exact ⟨x, xs, rfl⟩
  have ha0s : pySpace a0 = false := actCh_space (hac a0 (by simp))
  have hf0s : pySpace f0 = false := refCh_space (hrc f0 (by simp))
  cases hkw with
  | cons hk0 htl =>
    rename_i k0 kws
    have hk0s : pySpace k0 = false :=
      (ciEq_usesPat_props (by simp [usesPat]) hk0).1
    have t1 : (ws2 ++ ((k0 :: kws) ++ (ws3 ++ ((a0 :: as) ++ '@' :: ((f0 :: fs) ++ rest))))).takeWhile pySpace = ws2 := by
      rw [List.takeWhile_append_of_pos hws2]
      simp [List.takeWhile_cons, hk0s]
    have t2 : (ws2 ++ ((k0 :: kws) ++ (ws3 ++ ((a0 :: as) ++ '@' :: ((f0 :: fs) ++ rest))))).dropWhile pySpace
        = (k0 :: kws) ++ (ws3 ++ ((a0 :: as) ++ '@' :: ((f0 :: fs) ++ rest))) := by
      rw [List.dropWhile_append_of_pos hws2]
      simp [List.dropWhile_cons, hk0s]
    have t3 : matchKw usesPat ((k0 :: kws) ++ (ws3 ++ ((a0 :: as) ++ '@' :: ((f0 :: fs) ++ rest))))
        = some (k0 :: kws, ws3 ++ ((a0 :: as) ++ '@' :: ((f0 :: fs) ++ rest))) :=
      matchKw_of_forall (List.Forall₂.cons hk0 htl) _
    have t4 : (ws3 ++ ((a0 :: as) ++ '@' :: ((f0 :: fs) ++ rest))).takeWhile pySpace = ws3 := by
      rw [List.takeWhile_append_of_pos hws3]
      simp [List.takeWhile_cons, ha0s]
    have t5 : (ws3 ++ ((a0 :: as) ++ '@' :: ((f0 :: fs) ++ rest))).dropWhile pySpace
        = (a0 :: as) ++ '@' :: ((f0 :: fs) ++ rest) := by
      rw [List.dropWhile_append_of_pos hws3]
      simp [List.dropWhile_cons, ha0s]
    have hatF : actCh '@' = false := by decide
    have t6 : ((a0 :: as) ++ '@' :: ((f0 :: fs) ++ rest)).takeWhile actCh = a0 :: as := by
      rw [List.takeWhile_append_of_pos hac]
      simp [List.takeWhile_cons, hatF]
    have t7 : ((a0 :: as) ++ '@' :: ((f0 :: fs) ++ rest)).dropWhile actCh
        = '@' :: ((f0 :: fs) ++ rest) := by
      rw [List.dropWhile_append_of_pos hac]
      simp [List.dropWhile_cons, hatF]
    have hrestRef : rest.takeWhile refCh = [] ∧ rest.dropWhile refCh = rest := by
      rcases hrest with rfl | ⟨d, ds, rfl, hd⟩
      · exact ⟨rfl, rfl⟩
      · constructor
        · simp [List.takeWhile_cons, refCh, hd]
        · simp [List.dropWhile_cons, refCh, hd]
    have t8 : ((f0 :: fs) ++ rest).takeWhile refCh = f0 :: fs := by
      rw [List.takeWhile_append_of_pos hrc, hrestRef.1]
      simp
    have t9 : ((f0 :: fs) ++ rest).dropWhile refCh = rest := by
      rw [List.dropWhile_append_of_pos hrc, hrestRef.2]
    simp only [pyMatchCore, t1, t2, t3, t4, t5, t6, t7]
    rw [if_neg (by simp)]
    rw [if_pos (by simp)]
    simp only [List.tail_cons, t8, t9]
    rw [if_neg (by simp)]

/-- Reconstruction at line level: a line reassembled from well-formed groups
(with an arbitrary well-formed `ref` part) matches, yielding those groups. -/
theorem pyMatch_reconstruct
    (indent dash ws2 kw ws3 act rf rest : List Char)
    (hind : ∀ c ∈ indent, pySpace c = true)
    (hdash : dash = ['-'] ∨ (dash = [] ∧ ws2 = []))
    (hws2 : ∀ c ∈ ws2, pySpace c = true)
    (hkw : List.Forall₂ (fun c p => ciEq c p = true) kw usesPat)
    (hws3 : ∀ c ∈ ws3, pySpace c = true)
    (hane : act ≠ []) (hac : ∀ c ∈ act, actCh c = true)
    (hrne : rf ≠ []) (hrc : ∀ c ∈ rf, refCh c = true)
    (hrest : rest = [] ∨ ∃ d ds, rest = d :: ds ∧ pySpace d = true) :
    pyMatch ⟨indent ++ (dash ++ ws2 ++ kw ++ ws3) ++ act ++ '@' :: (rf ++ rest)⟩
      = some ⟨indent, dash ++ ws2 ++ kw ++ ws3, act, rf, rest⟩ := by
  have hdashF : pySpace '-' = false := by decide
  rcases hdash with rfl | ⟨rfl, rfl⟩
  · have t1 : (indent ++ ('-' :: (ws2 ++ (kw ++ (ws3 ++ (act ++ '@' :: (rf ++ rest))))))).takeWhile pySpace
        = indent := by
      rw [List.takeWhile_append_of_pos hind]
      simp [List.takeWhile_cons, hdashF]
    have t2 : (indent ++ ('-' :: (ws2 ++ (kw ++ (ws3 ++ (act ++ '@' :: (rf ++ rest))))))).dropWhile pySpace
        = '-' :: (ws2 ++ (kw ++ (ws3 ++ (act ++ '@' :: (rf ++ rest))))) := by
      rw [List.dropWhile_append_of_pos hind]
      simp [List.dropWhile_cons, hdashF]
    simp only [pyMatch, List.append_assoc, List.cons_append, List.singleton_append,
      List.nil_append, t1, t2]
    simp only [List.head?_cons, if_true]
    simp only [List.tail_cons]
    have := pyMatchCore_complete indent ['-'] ws2 kw ws3 act rf rest
      hws2 hkw hws3 hane hac hrne hrc hrest
    simpa [List.append_assoc] using this
  · cases hkw with
    | cons hk0 htl =>
      rename_i k0 kws
      obtain ⟨hk0s, _, hk0d, _⟩ := ciEq_usesPat_props (p := 'u') (by simp [usesPat]) hk0
      have t1 : (indent ++ (k0 :: (kws ++ (ws3 ++ (act ++ '@' :: (rf ++ rest)))))).takeWhile pySpace
          = indent := by
        rw [List.takeWhile_append_of_pos hind]
        simp [List.takeWhile_cons, hk0s]
      have t2 : (indent ++ (k0 :: (kws ++ (ws3 ++ (act ++ '@' :: (rf ++ rest)))))).dropWhile pySpace
          = k0 :: (kws ++ (ws3 ++ (act ++ '@' :: (rf ++ rest)))) := by
        rw [List.dropWhile_append_of_pos hind]
        simp [List.dropWhile_cons, hk0s]
      simp only [pyMatch, List.append_assoc, List.cons_append, List.singleton_append,
        List.nil_append, t1, t2]
      simp only [List.head?_cons]
      rw [if_neg (by simpa using hk0d)]
      have := pyMatchCore_complete indent [] [] (k0 :: kws) ws3 act rf rest
        (by intro c hc; simp at hc) (List.Forall₂.cons hk0 htl) hws3 hane hac hrne hrc hrest
      simpa [List.append_assoc] using this

theorem pySpace_ne_at {c : Char} (h : pySpace c = true) : c ≠ '@' := by
  rcases pySpace_cases h with rfl | rfl | rfl | rfl | rfl | rfl <;> decide

theorem actCh_ne_at {c : Char} (h : actCh c = true) : c ≠ '@' := by
  simp only [actCh, Bool.and_eq_true, bne_iff_ne, ne_eq] at h
  exact h.2

/-- `re.sub(r'@(\S+)', repl, ln, count=1)` on a line decomposed around its
first `@`-run: only that run is replaced; everything else is kept. -/
theorem subFirstList_decomp (repl pre rf rest : List Char)
    (hpre : ∀ c ∈ pre, c ≠ '@')
    (hrne : rf ≠ []) (hrc : ∀ c ∈ rf, refCh c = true)
    (hrest : rest = [] ∨ ∃ d ds, rest = d :: ds ∧ pySpace d = true) :
    subFirstList repl (pre ++ '@' :: (rf ++ rest)) = pre ++ '@' :: (repl ++ rest) := by
  induction pre with
  | nil =>
    obtain ⟨f0, fs, rfl⟩ : ∃ f0 fs, rf = f0 :: fs := by
      cases rf with
      | nil => exact absurd rfl hrne
      | cons x xs => exact ⟨x, xs, rfl⟩
    have hf0 : pySpace f0 = false := refCh_space (hrc f0 (by simp))
    have hrdrop : List.dropWhile refCh (f0 :: (fs ++ rest)) = rest := by
      have e : f0 :: (fs ++ rest) = (f0 :: fs) ++ rest := by simp
      rw [e, List.dropWhile_append_of_pos hrc]
      exact dropWhile_of_head_neg (by
        rcases hrest with rfl | ⟨d, ds, rfl, hd⟩
        · exact Or.inl rfl
        · exact Or.inr ⟨d, ds, rfl, by simp [refCh, hd]⟩)
    simp only [List.nil_append, List.cons_append, subFirstList]
    simp only [if_true, hf0, Bool.false_eq_true, if_false]
    rw [hrdrop]
  | cons c cs ih =>
    have hc : c ≠ '@' := hpre c (by simp)
    simp only [List.cons_append, subFirstList, if_neg hc, List.append_eq]
    rw [ih (fun d hd => hpre d (by simp [hd]))]

theorem matchKw_hash (tail : List Char) : matchKw usesPat ('#' :: tail) = none := by
  simp only [usesPat, matchKw]
  rw [if_neg (by decide)]

/-- A line of the shape `<whitespace># ...` never matches the pattern: the
inserted audit comment lines are passthrough. -/
theorem pyMatch_comment (indentL tail : List Char)
    (hind : ∀ c ∈ indentL, pySpace c = true) :
    pyMatch ⟨indentL ++ '#' :: tail⟩ = none := by
  have h1 : pySpace '#' = false := by decide
  have t1 : (indentL ++ '#' :: tail).takeWhile pySpace = indentL := by
    rw [List.takeWhile_append_of_pos hind]
    simp [List.takeWhile_cons, h1]
  have t2 : (indentL ++ '#' :: tail).dropWhile pySpace = '#' :: tail := by
    rw [List.dropWhile_append_of_pos hind]
    simp [List.dropWhile_cons, h1]
  have t3 : ('#' :: tail).takeWhile pySpace = [] := by
    simp [List.takeWhile_cons, h1]
  have t4 : ('#' :: tail).dropWhile pySpace = '#' :: tail := by
    simp [List.dropWhile_cons, h1]
  simp only [pyMatch, t1, t2, List.head?_cons]
  rw [if_neg (by decide)]
  simp only [pyMatchCore, t3, t4, matchKw_hash]

theorem forall₂_mem_left {R : Char → Char → Prop} {l₁ l₂ : List Char}
    (h : List.Forall₂ R l₁ l₂) : ∀ c ∈ l₁, ∃ p ∈ l₂, R c p := by
  induction h with
  | nil => intro c hc; simp at hc
  | cons hR ht ih =>
    intro c hc
    rcases List.mem_cons.mp hc with rfl | hc
    · exact ⟨_, by simp, hR⟩
    · obtain ⟨p, hp, hcp⟩ := ih c hc
      exact ⟨p, by simp [hp], hcp⟩

/-- A matched line whose ref is already 40 hex characters is passed through
unchanged, without consulting the resolver (`R` is arbitrary and unused). -/
theorem processLine_hex_skip (R : String → String → String → Option Json)
    (ln : String) (g : UsesGroups)
    (hm : pyMatch ln = some g) (hhex : isHex40 g.ref = true) :
    processLine R ln = ([ln], false) := by
  simp only [processLine, hm]
  by_cases hdot : (List.isPrefixOf ['.'] g.action || List.isPrefixOf ['.', '/'] g.action) = true
  · rw [if_pos hdot]
  · rw [if_neg hdot, if_pos hhex]

/-- The rewrite branch of the per-line loop: an eligible line whose resolution
produced a truthy value is replaced by the audit comment plus the line with
the `@`-run surgically replaced. -/
theorem processLine_rewrite (R : String → String → String → Option Json)
    (ln : String) (g : UsesGroups) (sha : Json)
    (hm : pyMatch ln = some g)
    (hdot : (List.isPrefixOf ['.'] g.action || List.isPrefixOf ['.', '/'] g.action) = false)
    (hhex : isHex40 g.ref = false)
    (hsl : g.action.contains '/' = true)
    (hR : R ⟨g.action.takeWhile (fun c => c != '/')⟩
            ⟨(g.action.dropWhile (fun c => c != '/')).tail⟩ ⟨g.ref⟩ = some sha)
    (htr : pyTruthy sha = true) :
    processLine R ln
      = ([⟨g.indent ++ "# original uses: ".data ++ g.action ++ '@' :: g.ref ++ ['\n']⟩,
          ⟨g.indent ++ g.pfx ++ g.action ++ '@' :: ((pyStr sha).data ++ g.rest)⟩], true) := by
  obtain ⟨dash, ws2, kw, ws3, hdec, hpfx, hindm, hdashd, hws2m, hkw, hws3m, hane, hacm,
    hrne, hrcm, hrest⟩ := pyMatch_sound hm
  have hpre : ∀ c ∈ g.indent ++ g.pfx ++ g.action, c ≠ '@' := by
    intro c hc
    simp only [List.append_assoc, List.mem_append] at hc
    rcases hc with hc | hc | hc
    · exact pySpace_ne_at (hindm c hc)
    · rw [hpfx] at hc
      simp only [List.append_assoc, List.mem_append] at hc
      rcases hc with hc | hc | hc | hc
      · rcases hdashd with rfl | ⟨rfl, _⟩
        · simp only [List.mem_singleton] at hc
          subst hc
          decide
        · simp at hc
      · exact pySpace_ne_at (hws2m c hc)
      · obtain ⟨p, hp, hcp⟩ := forall₂_mem_left hkw c hc
        exact (ciEq_usesPat_props hp hcp).2.1
      · exact pySpace_ne_at (hws3m c hc)
    · exact actCh_ne_at (hacm c hc)
  have hsub : subFirstList (pyStr sha).data ln.data
      = g.indent ++ g.pfx ++ g.action ++ '@' :: ((pyStr sha).data ++ g.rest) := by
    have hdec' : ln.data = (g.indent ++ g.pfx ++ g.action) ++ '@' :: (g.ref ++ g.rest) := by
      rw [hdec]
    rw [hdec', subFirstList_decomp (pyStr sha).data _ _ _ hpre hrne hrcm hrest]
  simp only [processLine, hm]
  rw [if_neg (by rw [hdot]; exact Bool.false_ne_true), if_neg (by rw [hhex]; exact Bool.false_ne_true)]
  rw [if_neg (by rw [hsl]; decide)]
  simp only [hR, htr, if_true]
  rw [hsub]

/-- Every line is either passed through unchanged, or rewritten to the audit
comment plus the surgically replaced line; the rewrite branch records the
guards and the resolver call that led to it. -/
theorem processLine_cases (R : String → String → String → Option Json) (ln : String) :
    processLine R ln = ([ln], false)
    ∨ ∃ g sha, pyMatch ln = some g
        ∧ (List.isPrefixOf ['.'] g.action || List.isPrefixOf ['.', '/'] g.action) = false
        ∧ isHex40 g.ref = false
        ∧ g.action.contains '/' = true
        ∧ R ⟨g.action.takeWhile (fun c => c != '/')⟩
            ⟨(g.action.dropWhile (fun c => c != '/')).tail⟩ ⟨g.ref⟩ = some sha
        ∧ pyTruthy sha = true
        ∧ processLine R ln
            = ([⟨g.indent ++ "# original uses: ".data ++ g.action ++ '@' :: g.ref ++ ['\n']⟩,
                ⟨g.indent ++ g.pfx ++ g.action ++ '@' :: ((pyStr sha).data ++ g.rest)⟩], true) := by
  rcases hm : pyMatch ln with _ | g
  · left
    simp only [processLine, hm]
  · by_cases hdot : (List.isPrefixOf ['.'] g.action || List.isPrefixOf ['.', '/'] g.action) = true
    · left
      simp only [processLine, hm]
      rw [if_pos hdot]
    · have hdot' : (List.isPrefixOf ['.'] g.action || List.isPrefixOf ['.', '/'] g.action) = false :=
        Bool.eq_false_iff.mpr hdot
      by_cases hhex : isHex40 g.ref = true
      · left
        exact processLine_hex_skip R ln g hm hhex
      · have hhex' : isHex40 g.ref = false := Bool.eq_false_iff.mpr hhex
        by_cases hsl : g.action.contains '/' = true
        · rcases hR : R ⟨g.action.takeWhile (fun c => c != '/')⟩
              ⟨(g.action.dropWhile (fun c => c != '/')).tail⟩ ⟨g.ref⟩ with _ | sha
          · left
            simp only [processLine, hm]
            rw [if_neg hdot, if_neg hhex, if_neg (by rw [hsl]; decide)]
            simp only [hR]
          · cases htr : pyTruthy sha
            · left
              simp only [processLine, hm]
              rw [if_neg hdot, if_neg hhex, if_neg (by rw [hsl]; decide)]
              simp only [hR, htr, Bool.false_eq_true, if_false]
            · right
              exact ⟨g, sha, rfl, hdot', hhex', hsl, hR, htr,
                processLine_rewrite R ln g sha hm hdot' hhex' hsl hR htr⟩
        · left
          have hsl' : g.action.contains '/' = false := Bool.eq_false_iff.mpr hsl
          simp only [processLine, hm]
          rw [if_neg hdot, if_neg hhex, if_pos (by rw [hsl']; decide)]

theorem processLines_cons (R : String → String → String → Option Json) (ln : String)
    (rest : List String) :
    processLines R (ln :: rest)
      = ((processLine R ln).1 ++ (processLines R rest).1,
         (processLine R ln).2 || (processLines R rest).2) := by
  simp [processLines]

/-- Output never loses lines; the changed flag characterises both strict
growth and difference from the input. -/
theorem processLines_spec (R : String → String → String → Option Json) (lines : List String) :
    lines.length ≤ (processLines R lines).1.length
    ∧ ((processLines R lines).2 = false → (processLines R lines).1 = lines)
    ∧ ((processLines R lines).2 = true → lines.length < (processLines R lines).1.length) := by
  induction lines with
  | nil =>
    refine ⟨Nat.le_refl _, fun _ => rfl, fun h => ?_⟩
    simp [processLines] at h
  | cons ln rest ih =>
    obtain ⟨ih1, ih2, ih3⟩ := ih
    have hline : processLine R ln = ([ln], false) ∨ ∃ a b, processLine R ln = ([a, b], true) := by
      rcases processLine_cases R ln with h | ⟨g, sha, _, _, _, _, _, _, heq⟩
      · exact Or.inl h
      · exact Or.inr ⟨_, _, heq⟩
    rw [processLines_cons]
    rcases hline with heq | ⟨a, b, heq⟩ <;> rw [heq]
    · refine ⟨?_, ?_, ?_⟩
      · simpa using Nat.succ_le_succ ih1
      · intro h
        simp only [Bool.false_or] at h
        simp [ih2 h]
      · intro h
        simp only [Bool.false_or] at h
        simpa using Nat.succ_lt_succ (ih3 h)
    · refine ⟨?_, ?_, ?_⟩
      · simp only [List.cons_append, List.nil_append, List.length_cons]
        omega
      · intro h
        simp at h
      · intro h
        simp only [List.cons_append, List.nil_append, List.length_cons]
        omega

theorem isHex40_ref_ok {l : List Char} (h : isHex40 l = true) :
    l ≠ [] ∧ ∀ c ∈ l, refCh c = true := by
  simp only [isHex40, Bool.and_eq_true, decide_eq_true_eq, List.all_eq_true] at h
  constructor
  · intro hnil
    rw [hnil] at h
    simp at h
  · intro c hc
    have hx := h.2 c hc
    simp [refCh, (isHexCh_props hx).1]

theorem processLine_nomatch (R : String → String → String → Option Json) (ln : String)
    (h : pyMatch ln = none) : processLine R ln = ([ln], false) := by
  simp only [processLine, h]

/-- An audit comment line (indentation then `#`) is passthrough. -/
theorem processLine_comment (R : String → String → String → Option Json)
    (indentL tail : List Char) (hind : ∀ c ∈ indentL, pySpace c = true) :
    processLine R ⟨indentL ++ '#' :: tail⟩ = ([⟨indentL ++ '#' :: tail⟩], false) :=
  processLine_nomatch R _ (pyMatch_comment indentL tail hind)

/-- A line produced by the rewrite branch, whose substituted value is a
40-hex string, is matched again on a second pass but then skipped by the
already-pinned test, without consulting the resolver. -/
theorem processLine_rewritten_skip (R : String → String → String → Option Json)
    (ln : String) (g : UsesGroups) (s : String)
    (hm : pyMatch ln = some g) (hhexs : isHex40 s.data = true) :
    processLine R ⟨g.indent ++ g.pfx ++ g.action ++ '@' :: (s.data ++ g.rest)⟩
      = ([⟨g.indent ++ g.pfx ++ g.action ++ '@' :: (s.data ++ g.rest)⟩], false) := by
  obtain ⟨dash, ws2, kw, ws3, hdec, hpfx, hindm, hdashd, hws2m, hkw, hws3m, hane, hacm,
    hrne, hrcm, hrest⟩ := pyMatch_sound hm
  obtain ⟨hsne, hsc⟩ := isHex40_ref_ok hhexs
  have hmatch : pyMatch ⟨g.indent ++ g.pfx ++ g.action ++ '@' :: (s.data ++ g.rest)⟩
      = some ⟨g.indent, g.pfx, g.action, s.data, g.rest⟩ := by
    rw [hpfx]
    exact pyMatch_reconstruct g.indent dash ws2 kw ws3 g.action s.data g.rest
      hindm hdashd hws2m hkw hws3m hane hacm hsne hsc hrest
  exact processLine_hex_skip R _ _ hmatch hhexs

/-- The hypothesis of the amended idempotence claim: every truthy value the
resolver produces is a 40-hex string. -/
def HexResolver (R : String → String → String → Option Json) : Prop :=
  ∀ o r ref v, R o r ref = some v → pyTruthy v = true →
    ∃ s, v = Json.str s ∧ isHex40 s.data = true

/-- Second-pass invariance over the output of one `processLine`. -/
theorem processLines_block (R : String → String → String → Option Json)
    (hR : HexResolver R) (ln : String) :
    processLines R (processLine R ln).1 = ((processLine R ln).1, false) := by
  rcases processLine_cases R ln with heq | ⟨g, sha, hm, hdot, hhex, hsl, hRln, htr, heq⟩
  · rw [heq]
    simp only [processLines]
    rw [heq]
    simp
  · obtain ⟨s, rfl, hhexs⟩ := hR _ _ _ _ hRln htr
    rw [heq]
    obtain ⟨dash, ws2, kw, ws3, hdec, hpfx, hindm, _⟩ := pyMatch_sound hm
    have hceq : (⟨g.indent ++ "# original uses: ".data ++ g.action ++ '@' :: g.ref ++ ['\n']⟩ : String)
        = ⟨g.indent ++ '#' :: (" original uses: ".data ++ g.action ++ '@' :: g.ref ++ ['\n'])⟩ := by
      apply congrArg String.mk
      have e : "# original uses: ".data = '#' :: " original uses: ".data := rfl
      rw [e]
      simp [List.append_assoc]
    have pc := processLine_comment R g.indent
      (" original uses: ".data ++ g.action ++ '@' :: g.ref ++ ['\n']) hindm
    have pw := processLine_rewritten_skip R ln g s hm hhexs
    have hstr : pyStr (Json.str s) = s := rfl
    rw [hstr] at *
    simp only [processLines]
    rw [hceq, pc, pw]
    simp

theorem processLines_append (R : String → String → String → Option Json)
    (xs ys : List String) :
    processLines R (xs ++ ys)
      = ((processLines R xs).1 ++ (processLines R ys).1,
         (processLines R xs).2 || (processLines R ys).2) := by
  induction xs with
  | nil => simp [processLines]
  | cons ln rest ih =>
    simp only [List.cons_append, processLines_cons, ih, List.append_assoc, Bool.or_assoc]

/-- Idempotence of the rewriter under the 40-hex hypothesis on the resolver:
a second pass over a first pass's output changes nothing and reports no
change. -/
theorem processLines_idem (R : String → String → String → Option Json)
    (hR : HexResolver R) (lines : List String) :
    processLines R (processLines R lines).1 = ((processLines R lines).1, false) := by
  induction lines with
  | nil => simp [processLines]
  | cons ln rest ih =>
    rw [processLines_cons]
    rw [processLines_append, processLines_block R hR ln, ih]
    simp

theorem pyTruthy_str {s : String} (h : s ≠ "") : pyTruthy (Json.str s) = true := by
  simp [pyTruthy, h]

theorem gh_ok_commits (net : Net) (o r ref : String) :
    gh_api_get net (commitsUrl o r ref) = Except.ok (net (commitsUrl o r ref)) := by
  rw [commitsUrl]
  exact gh_api_get_api net _

theorem gh_ok_tagRef (net : Net) (o r t : String) :
    gh_api_get net (tagRefUrl o r t) = Except.ok (net (tagRefUrl o r t)) := by
  rw [tagRefUrl]
  exact gh_api_get_api net _

theorem gh_ok_tagObj (net : Net) (o r s : String) :
    gh_api_get net (tagObjUrl o r s) = Except.ok (net (tagObjUrl o r s)) := by
  rw [tagObjUrl]
  exact gh_api_get_api net _

theorem gh_ok_releases (net : Net) (o r t : String) :
    gh_api_get net (releasesUrl o r t) = Except.ok (net (releasesUrl o r t)) := by
  rw [releasesUrl]
  exact gh_api_get_api net _

/-- The conditions under which step 1 of the resolver actually falls through
to step 2: a non-200 status, an unparseable body, or a body that is not a
JSON object (`AttributeError`).  A 200 object body *without* a usable `sha`
is **not** among them — the script returns `None` there. -/
def commitLookupFails (net : Net) (owner repo ref : String) : Prop :=
  (net (commitsUrl owner repo ref)).2 ≠ some 200
  ∨ (net (commitsUrl owner repo ref)).1 = none
  ∨ ∃ j, (net (commitsUrl owner repo ref)).1 = some j ∧ j.get? "sha" = none

/-- When step 1 fails in one of the caught ways, the resolver's result is
exactly the result of the step-2/step-3 chain. -/
theorem resolve_sha_fallthrough (net : Net) (owner repo ref : String)
    (h : commitLookupFails net owner repo ref) :
    resolve_sha net owner repo ref = resolveStep2 net owner repo ref := by
  simp only [resolve_sha, gh_ok_commits]
  simp only [commitLookupFails] at h
  rcases hnet : net (commitsUrl owner repo ref) with ⟨body, code⟩
  rw [hnet] at h
  dsimp only at h ⊢
  rcases h with h | h | ⟨j, hj, hsha⟩
  · rw [if_neg h]
  · by_cases hc : code = some 200
    · rw [if_pos hc, h]
    · rw [if_neg hc]
  · by_cases hc : code = some 200
    · rw [if_pos hc, hj]
      simp only [hsha]
    · rw [if_neg hc]

/-- Step 2, annotated-tag success path: the tag-ref target is `T` and the
tag-object lookup yields a truthy commit identifier `C`; the result is `C`. -/
theorem resolveStep2_annotated (net : Net) (o r ref : String)
    (j : Json) (objOpt : Option Json) (T : Json)
    (j2 : Json) (oOpt : Option Json) (C : Json)
    (h200 : (net (tagRefUrl o r ref)).2 = some 200)
    (hbody : (net (tagRefUrl o r ref)).1 = some j)
    (hobj : j.get? "object" = some objOpt)
    (hsha : (objOpt.getD (Json.obj [])).get? "sha" = some (some T))
    (htr : pyTruthy T = true)
    (h200b : (net (tagObjUrl o r (pyStr T))).2 = some 200)
    (hbody2 : (net (tagObjUrl o r (pyStr T))).1 = some j2)
    (hobj2 : j2.get? "object" = some oOpt)
    (hsha2 : (oOpt.getD (Json.obj [])).get? "sha" = some (some C))
    (htrC : pyTruthy C = true) :
    resolveStep2 net o r ref = Except.ok (some C) := by
  simp only [resolveStep2, gh_ok_tagRef]
  rcases hnet : net (tagRefUrl o r ref) with ⟨body, code⟩
  rw [hnet] at h200 hbody
  dsimp only at h200 hbody ⊢
  rw [if_pos h200, hbody]
  simp only [hobj, hsha, htr, if_true, gh_ok_tagObj]
  rcases hnet2 : net (tagObjUrl o r (pyStr T)) with ⟨body2, code2⟩
  rw [hnet2] at h200b hbody2
  dsimp only at h200b hbody2 ⊢
  rw [if_pos h200b, hbody2]
  simp only [hobj2, hsha2, htrC, if_true]

/-- Step 2, annotated-tag fallback path: the tag-object lookup fails with a
non-200 status or an unparseable body; the result is the tag-ref target `T`
itself. -/
theorem resolveStep2_fallback (net : Net) (o r ref : String)
    (j : Json) (objOpt : Option Json) (T : Json)
    (h200 : (net (tagRefUrl o r ref)).2 = some 200)
    (hbody : (net (tagRefUrl o r ref)).1 = some j)
    (hobj : j.get? "object" = some objOpt)
    (hsha : (objOpt.getD (Json.obj [])).get? "sha" = some (some T))
    (htr : pyTruthy T = true)
    (hfail : (net (tagObjUrl o r (pyStr T))).2 ≠ some 200
             ∨ (net (tagObjUrl o r (pyStr T))).1 = none) :
    resolveStep2 net o r ref = Except.ok (some T) := by
  simp only [resolveStep2, gh_ok_tagRef]
  rcases hnet : net (tagRefUrl o r ref) with ⟨body, code⟩
  rw [hnet] at h200 hbody
  dsimp only at h200 hbody ⊢
  rw [if_pos h200, hbody]
  simp only [hobj, hsha, htr, if_true, gh_ok_tagObj]
  rcases hnet2 : net (tagObjUrl o r (pyStr T)) with ⟨body2, code2⟩
  rw [hnet2] at hfail
  dsimp only at hfail ⊢
  rcases hfail with hf | hf
  · rw [if_neg hf]
  · by_cases hc : code2 = some 200
    · rw [if_pos hc, hf]
    · rw [if_neg hc]

/-- The conditions under which step 2 falls through to step 3. -/
def tagRefLookupFails (net : Net) (o r t : String) : Prop :=
  (net (tagRefUrl o r t)).2 ≠ some 200
  ∨ (net (tagRefUrl o r t)).1 = none
  ∨ (∃ j, (net (tagRefUrl o r t)).1 = some j ∧ j.get? "object" = none)
  ∨ (∃ j objOpt, (net (tagRefUrl o r t)).1 = some j ∧ j.get? "object" = some objOpt
      ∧ (objOpt.getD (Json.obj [])).get? "sha" = none)
  ∨ (∃ j objOpt, (net (tagRefUrl o r t)).1 = some j ∧ j.get? "object" = some objOpt
      ∧ (objOpt.getD (Json.obj [])).get? "sha" = some none)
  ∨ (∃ j objOpt v, (net (tagRefUrl o r t)).1 = some j ∧ j.get? "object" = some objOpt
      ∧ (objOpt.getD (Json.obj [])).get? "sha" = some (some v) ∧ pyTruthy v = false)

theorem resolveStep2_fallthrough (net : Net) (o r ref : String)
    (h : tagRefLookupFails net o r ref) :
    resolveStep2 net o r ref = resolveStep3 net o r ref := by
  simp only [resolveStep2, gh_ok_tagRef]
  simp only [tagRefLookupFails] at h
  rcases hnet : net (tagRefUrl o r ref) with ⟨body, code⟩
  rw [hnet] at h
  dsimp only at h ⊢
  rcases h with h | h | ⟨j, hj, hobj⟩ | ⟨j, objOpt, hj, hobj, hsha⟩
      | ⟨j, objOpt, hj, hobj, hsha⟩ | ⟨j, objOpt, v, hj, hobj, hsha, htr⟩
  · rw [if_neg h]
  · by_cases hc : code = some 200
    · rw [if_pos hc, h]
    · rw [if_neg hc]
  · by_cases hc : code = some 200
    · rw [if_pos hc, hj]
      simp only [hobj]
    · rw [if_neg hc]
  · by_cases hc : code = some 200
    · rw [if_pos hc, hj]
      simp only [hobj, hsha]
    · rw [if_neg hc]
  · by_cases hc : code = some 200
    · rw [if_pos hc, hj]
      simp only [hobj, hsha]
    · rw [if_neg hc]
  · by_cases hc : code = some 200
    · rw [if_pos hc, hj]
      simp only [hobj, hsha, htr, Bool.false_eq_true, if_false]
    · rw [if_neg hc]

/-- Step 3, the release path: the release body names `tag`, the tag-ref
lookup on `tag` responds 200 with a parseable object body, and the resolver
returns that body's `object.sha` value directly — with no tag-object
dereference. -/
theorem resolveStep3_release (net : Net) (o r ref tag : String)
    (j j2 : Json) (oOpt : Option Json) (s : Option Json)
    (h200 : (net (releasesUrl o r ref)).2 = some 200)
    (hbody : (net (releasesUrl o r ref)).1 = some j)
    (htag : j.get? "tag_name" = some (some (Json.str tag)))
    (htagne : tag ≠ "")
    (h200b : (net (tagRefUrl o r tag)).2 = some 200)
    (hbody2 : (net (tagRefUrl o r tag)).1 = some j2)
    (hobj : j2.get? "object" = some oOpt)
    (hsha : (oOpt.getD (Json.obj [])).get? "sha" = some s) :
    resolveStep3 net o r ref = Except.ok s := by
  simp only [resolveStep3, gh_ok_releases]
  rcases hnet : net (releasesUrl o r ref) with ⟨body, code⟩
  rw [hnet] at h200 hbody
  dsimp only at h200 hbody ⊢
  rw [if_pos h200, hbody]
  have hstr : pyStr (Json.str tag) = tag := rfl
  simp only [htag, pyTruthy_str htagne, if_true, hstr, gh_ok_tagRef]
  rcases hnet2 : net (tagRefUrl o r tag) with ⟨body2, code2⟩
  rw [hnet2] at h200b hbody2
  dsimp only at h200b hbody2 ⊢
  rw [if_pos h200b, hbody2]
  simp only [hobj, hsha]

/-- Well-formedness of a network's responses: every value sitting in a `sha`
field (directly, or inside an `object` member) is a 40-hex string.  This is
the hypothesis of the amended ResolvedCommit-invariant claim. -/
def GoodNet (net : Net) : Prop :=
  ∀ url j, (net url).1 = some j →
    (∀ v, j.get? "sha" = some (some v) → ∃ s, v = Json.str s ∧ isHex40 s.data = true)
    ∧ (∀ oOpt v, j.get? "object" = some oOpt →
        (oOpt.getD (Json.obj [])).get? "sha" = some (some v) →
        ∃ s, v = Json.str s ∧ isHex40 s.data = true)

theorem resolveStep3_goodnet (net : Net) (hg : GoodNet net) (o r ref : String) (v : Json)
    (h : resolveStep3 net o r ref = Except.ok (some v)) :
    ∃ s, v = Json.str s ∧ isHex40 s.data = true := by
  simp only [resolveStep3] at h
  repeat' split at h
  all_goals try simp at h
  rename_i heq2 x1 oOpt hObj x0 s0 hSha
  subst h
  rw [gh_ok_tagRef] at heq2
  have hnet2 := Except.ok.inj heq2
  exact (hg _ _ (by rw [hnet2])).2 oOpt v hObj hSha

theorem resolveStep2_goodnet (net : Net) (hg : GoodNet net) (o r ref : String) (v : Json)
    (h : resolveStep2 net o r ref = Except.ok (some v)) :
    ∃ s, v = Json.str s ∧ isHex40 s.data = true := by
  have key : ∀ url (j : Json) (oOpt : Option Json) (code : Option Nat),
      net url = (some j, code) → j.get? "object" = some oOpt →
      (oOpt.getD (Json.obj [])).get? "sha" = some (some v) →
      ∃ s, v = Json.str s ∧ isHex40 s.data = true := by
    intro url j oOpt code hnet hobj hsha
    exact (hg url j (by rw [hnet])).2 oOpt v hobj hsha
  simp only [resolveStep2] at h
  repeat' split at h
  all_goals try simp at h
  all_goals try exact resolveStep3_goodnet net hg o r ref v h
  all_goals subst h
  all_goals simp only [gh_ok_tagRef, gh_ok_tagObj, Except.ok.injEq] at *
  all_goals solve_by_elim [key]

/-- Amended ResolvedCommit invariant: over any network whose `sha` fields are
all 40-hex strings, every resolved (non-`None`) value the resolver returns is
a 40-hex string. -/
theorem resolve_sha_goodnet (net : Net) (hg : GoodNet net) (o r ref : String) (v : Json)
    (h : resolve_sha net o r ref = Except.ok (some v)) :
    ∃ s, v = Json.str s ∧ isHex40 s.data = true := by
  have key : ∀ url (j : Json) (code : Option Nat),
      net url = (some j, code) → j.get? "sha" = some (some v) →
      ∃ s, v = Json.str s ∧ isHex40 s.data = true := by
    intro url j code hnet hsha
    exact (hg url j (by rw [hnet])).1 v hsha
  simp only [resolve_sha] at h
  repeat' split at h
  all_goals try simp at h
  all_goals try exact resolveStep2_goodnet net hg o r ref v h
  all_goals subst h
  all_goals simp only [gh_ok_commits, Except.ok.injEq] at *
  all_goals solve_by_elim [key]

/-! ## Claims -/

/-- A 40-hex commit identifier used in examples. -/
def shaA : String := "0123456789abcdef0123456789abcdef01234567"

/-- A 40-hex tag-object identifier used in examples. -/
def shaT : String := "ffffffffffffffffffffffffffffffffffffffff"

/-- A second 40-hex commit identifier used in examples. -/
def shaB : String := "1111111111111111111111111111111111111111"

/-- Claim C1 (amended): a commit-lookup failure of status, transport, parse,
or not-an-object kind is treated as no result and the resolver proceeds to
the tag-ref and release steps; however (see the counterexample) a 200
response whose parsed object lacks a usable `sha` makes the resolver return
unresolved immediately, without attempting steps 2 and 3. -/
theorem claim_C1 (net : Net) (owner repo ref : String)
    (h : commitLookupFails net owner repo ref) :
    resolve_sha net owner repo ref = resolveStep2 net owner repo ref :=
  resolve_sha_fallthrough net owner repo ref h

def netC1w : Net := fun _ => (none, some 404)

theorem claim_C1_witness :
    commitLookupFails netC1w "o" "r" "v1"
    ∧ resolve_sha netC1w "o" "r" "v1" = resolveStep2 netC1w "o" "r" "v1" :=
  ⟨Or.inl (by decide), claim_C1 netC1w "o" "r" "v1" (Or.inl (by decide))⟩

def netC1 : Net := fun url =>
  if url = commitsUrl "o" "r" "v1" then
    (some (Json.obj [("message", Json.str "ok")]), some 200)
  else if url = tagRefUrl "o" "r" "v1" then
    (some (Json.obj [("object", Json.obj [("sha", Json.str shaA), ("type", Json.str "commit")])]),
     some 200)
  else (none, some 404)

/-- Claim C1, counterexample: the commit lookup answers 200 with a parseable
object that has no usable commit identifier, and the tag-ref step would have
produced `shaA`; the claim says steps 2 and 3 are still attempted, but the
resolver returns unresolved without them. -/
theorem claim_C1_counterexample :
    resolve_sha netC1 "o" "r" "v1" = Except.ok none
    ∧ resolveStep2 netC1 "o" "r" "v1" = Except.ok (some (Json.str shaA))
    ∧ (Except.ok none : Except String (Option Json)) ≠ Except.ok (some (Json.str shaA)) :=
  ⟨rfl, rfl, by simp⟩

/-- Claim C2 (amended): after steps 1 and 2 fail, the release step discovers
the release's declared tag name and repeats only the tag-ref lookup on it,
returning that lookup's target object identifier directly — it does not
perform the annotated-tag second lookup of step 2. -/
theorem claim_C2 (net : Net) (o r ref tag : String) (j j2 : Json) (oOpt : Option Json)
    (s : Option Json)
    (h1 : commitLookupFails net o r ref)
    (h2 : tagRefLookupFails net o r ref)
    (h200 : (net (releasesUrl o r ref)).2 = some 200)
    (hbody : (net (releasesUrl o r ref)).1 = some j)
    (htag : j.get? "tag_name" = some (some (Json.str tag)))
    (htagne : tag ≠ "")
    (h200b : (net (tagRefUrl o r tag)).2 = some 200)
    (hbody2 : (net (tagRefUrl o r tag)).1 = some j2)
    (hobj : j2.get? "object" = some oOpt)
    (hsha : (oOpt.getD (Json.obj [])).get? "sha" = some s) :
    resolve_sha net o r ref = Except.ok s := by
  rw [resolve_sha_fallthrough net o r ref h1, resolveStep2_fallthrough net o r ref h2]
  exact resolveStep3_release net o r ref tag j j2 oOpt s h200 hbody htag htagne h200b
    hbody2 hobj hsha

def netC2 : Net := fun url =>
  if url = releasesUrl "o" "r" "rel1" then
    (some (Json.obj [("tag_name", Json.str "v2")]), some 200)
  else if url = tagRefUrl "o" "r" "v2" then
    (some (Json.obj [("object", Json.obj [("sha", Json.str shaT), ("type", Json.str "tag")])]),
     some 200)
  else if url = tagObjUrl "o" "r" shaT then
    (some (Json.obj [("object", Json.obj [("sha", Json.str shaB)])]), some 200)
  else (none, some 404)

theorem claim_C2_witness :
    commitLookupFails netC2 "o" "r" "rel1"
    ∧ tagRefLookupFails netC2 "o" "r" "rel1"
    ∧ resolve_sha netC2 "o" "r" "rel1" = Except.ok (some (Json.str shaT)) :=
  ⟨Or.inl (by decide), Or.inl (by decide),
    claim_C2 netC2 "o" "r" "rel1" "v2"
      (Json.obj [("tag_name", Json.str "v2")])
      (Json.obj [("object", Json.obj [("sha", Json.str shaT), ("type", Json.str "tag")])])
      (some (Json.obj [("sha", Json.str shaT), ("type", Json.str "tag")]))
      (some (Json.str shaT))
      (Or.inl (by decide)) (Or.inl (by decide)) rfl rfl rfl (by decide) rfl rfl rfl rfl⟩

/-- Claim C2, counterexample: the release names tag `v2`, whose tag-ref
target is an annotated tag object `shaT`; the tag-object endpoint would
dereference it to commit `shaB`, and the claim says the result is that
commit — but the resolver returns `shaT` without the second lookup. -/
theorem claim_C2_counterexample :
    resolve_sha netC2 "o" "r" "rel1" = Except.ok (some (Json.str shaT))
    ∧ shaT ≠ shaB :=
  ⟨rfl, by decide⟩

/-- Claim C5: when the commit lookup fails, the tag-ref lookup succeeds with
target object identifier `T`, and the tag-object lookup for `T` succeeds with
target commit identifier `C`, the resolver returns `C` — not `T`. -/
theorem claim_C5 (net : Net) (o r ref : String) (j : Json) (objOpt : Option Json)
    (j2 : Json) (oOpt : Option Json) (T C : String)
    (h1 : commitLookupFails net o r ref)
    (h200 : (net (tagRefUrl o r ref)).2 = some 200)
    (hbody : (net (tagRefUrl o r ref)).1 = some j)
    (hobj : j.get? "object" = some objOpt)
    (hsha : (objOpt.getD (Json.obj [])).get? "sha" = some (some (Json.str T)))
    (hTne : T ≠ "")
    (h200b : (net (tagObjUrl o r T)).2 = some 200)
    (hbody2 : (net (tagObjUrl o r T)).1 = some j2)
    (hobj2 : j2.get? "object" = some oOpt)
    (hsha2 : (oOpt.getD (Json.obj [])).get? "sha" = some (some (Json.str C)))
    (hCne : C ≠ "")
    (hCT : C ≠ T) :
    resolve_sha net o r ref = Except.ok (some (Json.str C))
    ∧ resolve_sha net o r ref ≠ Except.ok (some (Json.str T)) := by
  have hmain : resolve_sha net o r ref = Except.ok (some (Json.str C)) := by
    rw [resolve_sha_fallthrough net o r ref h1]
    exact resolveStep2_annotated net o r ref j objOpt (Json.str T) j2 oOpt (Json.str C)
      h200 hbody hobj hsha (pyTruthy_str hTne) h200b hbody2 hobj2 hsha2
      (pyTruthy_str hCne)
  refine ⟨hmain, ?_⟩
  rw [hmain]
  simp [hCT]

def netC5 : Net := fun url =>
  if url = tagRefUrl "o" "r" "v2" then
    (some (Json.obj [("object", Json.obj [("sha", Json.str shaT), ("type", Json.str "tag")])]),
     some 200)
  else if url = tagObjUrl "o" "r" shaT then
    (some (Json.obj [("object", Json.obj [("sha", Json.str shaB)])]), some 200)
  else (none, some 404)

theorem claim_C5_witness :
    commitLookupFails netC5 "o" "r" "v2"
    ∧ resolve_sha netC5 "o" "r" "v2" = Except.ok (some (Json.str shaB))
    ∧ resolve_sha netC5 "o" "r" "v2" ≠ Except.ok (some (Json.str shaT)) := by
  have h := claim_C5 netC5 "o" "r" "v2"
    (Json.obj [("object", Json.obj [("sha", Json.str shaT), ("type", Json.str "tag")])])
    (some (Json.obj [("sha", Json.str shaT), ("type", Json.str "tag")]))
    (Json.obj [("object", Json.obj [("sha", Json.str shaB)])])
    (some (Json.obj [("sha", Json.str shaB)]))
    shaT shaB
    (Or.inl (by decide)) rfl rfl rfl rfl (by decide) rfl rfl rfl rfl (by decide) (by decide)
  exact ⟨Or.inl (by decide), h.1, h.2⟩

/-- Claim C6: when the tag-ref lookup succeeds with target object identifier
`T` but the tag-object lookup for `T` fails (non-success status or
unparseable body), the resolver returns `T` itself rather than unresolved. -/
theorem claim_C6 (net : Net) (o r ref : String) (j : Json) (objOpt : Option Json)
    (T : String)
    (h1 : commitLookupFails net o r ref)
    (h200 : (net (tagRefUrl o r ref)).2 = some 200)
    (hbody : (net (tagRefUrl o r ref)).1 = some j)
    (hobj : j.get? "object" = some objOpt)
    (hsha : (objOpt.getD (Json.obj [])).get? "sha" = some (some (Json.str T)))
    (hTne : T ≠ "")
    (hfail : (net (tagObjUrl o r T)).2 ≠ some 200 ∨ (net (tagObjUrl o r T)).1 = none) :
    resolve_sha net o r ref = Except.ok (some (Json.str T)) := by
  rw [resolve_sha_fallthrough net o r ref h1]
  exact resolveStep2_fallback net o r ref j objOpt (Json.str T) h200 hbody hobj hsha
    (pyTruthy_str hTne) hfail

def netC6 : Net := fun url =>
  if url = tagRefUrl "o" "r" "v3" then
    (some (Json.obj [("object", Json.obj [("sha", Json.str shaT), ("type", Json.str "tag")])]),
     some 200)
  else (none, some 404)

theorem claim_C6_witness :
    commitLookupFails netC6 "o" "r" "v3"
    ∧ resolve_sha netC6 "o" "r" "v3" = Except.ok (some (Json.str shaT)) :=
  ⟨Or.inl (by decide),
    claim_C6 netC6 "o" "r" "v3"
      (Json.obj [("object", Json.obj [("sha", Json.str shaT), ("type", Json.str "tag")])])
      (some (Json.obj [("sha", Json.str shaT), ("type", Json.str "tag")]))
      shaT
      (Or.inl (by decide)) rfl rfl rfl rfl (by decide) (Or.inl (by decide))⟩

/-- Claim C8 (amended): whenever the network's responses carry only 40-hex
strings in their `sha` fields, every resolved value the resolver returns is a
40-hex string; the invariant is inherited from the responses, not enforced by
the resolver (see the counterexample). -/
theorem claim_C8 (net : Net) (hg : GoodNet net) (o r ref : String) (v : Json)
    (h : resolve_sha net o r ref = Except.ok (some v)) :
    ∃ s, v = Json.str s ∧ isHex40 s.data = true :=
  resolve_sha_goodnet net hg o r ref v h

def netC8 : Net := fun url =>
  if url = commitsUrl "o" "r" "v1" then
    (some (Json.obj [("sha", Json.str "deadbeef")]), some 200)
  else (none, some 404)

/-- Claim C8, counterexample: a 200 commit-lookup response whose `sha` field
is the 8-character string `deadbeef` is returned by the resolver as the
resolved commit, violating the 40-hex invariant. -/
theorem claim_C8_counterexample :
    resolve_sha netC8 "o" "r" "v1" = Except.ok (some (Json.str "deadbeef"))
    ∧ isHex40 "deadbeef".data = false :=
  ⟨rfl, by decide⟩

def netC8w : Net := fun _ => (some (Json.obj [("sha", Json.str shaA)]), some 200)

theorem claim_C8_witness :
    GoodNet netC8w
    ∧ resolve_sha netC8w "o" "r" "v1" = Except.ok (some (Json.str shaA))
    ∧ ∃ s, Json.str shaA = Json.str s ∧ isHex40 s.data = true := by
  have hg : GoodNet netC8w := by
    intro url j h
    injection h with h
    subst h
    constructor
    · intro v hv
      injection hv with hv
      injection hv with hv
      exact ⟨shaA, hv.symm, by decide⟩
    · intro oOpt v ho hv
      injection ho with ho
      subst ho
      injection hv with hv
      injection hv
  exact ⟨hg, rfl, claim_C8 netC8w hg "o" "r" "v1" (Json.str shaA) rfl⟩

/-- Claim C9: any URL not beginning with the GitHub API HTTPS origin prefix
is rejected before any network request is issued — the result is the
`ValueError` rejection and is independent of the network. -/
theorem claim_C9 (net net' : Net) (url : String)
    (h : pyStartsWith url apiBase = false) :
    gh_api_get net url = Except.error ("Invalid GitHub API URL: " ++ url)
    ∧ gh_api_get net url = gh_api_get net' url := by
  constructor <;> simp [gh_api_get, h]

def netC9a : Net := fun _ => (none, some 200)

def netC9b : Net := fun _ => (some (Json.obj []), none)

theorem claim_C9_witness :
    pyStartsWith "file:///etc/passwd" apiBase = false
    ∧ (gh_api_get netC9a "file:///etc/passwd"
        = Except.error ("Invalid GitHub API URL: " ++ "file:///etc/passwd")
       ∧ gh_api_get netC9a "file:///etc/passwd" = gh_api_get netC9b "file:///etc/passwd") :=
  ⟨by decide, claim_C9 netC9a netC9b "file:///etc/passwd" (by decide)⟩

/-- Claim C3: a line whose parsed ref is exactly 40 hexadecimal characters
(either case) is emitted unchanged as the only output for that line, for
every resolver `R` — the quantification over `R` expresses that the resolver
is never invoked. -/
theorem claim_C3 (R : String → String → String → Option Json) (ln : String)
    (g : UsesGroups) (hm : pyMatch ln = some g) (hhex : isHex40 g.ref = true) :
    processLine R ln = ([ln], false) :=
  processLine_hex_skip R ln g hm hhex

def lnC3 : String := "  - uses: actions/checkout@0123456789abcdef0123456789ABCDEF01234567 # ok\n"

def gC3 : UsesGroups :=
  ⟨"  ".data, "- uses: ".data, "actions/checkout".data,
   "0123456789abcdef0123456789ABCDEF01234567".data, " # ok\n".data⟩

def RC3 : String → String → String → Option Json := fun _ _ _ => some (Json.str shaB)

theorem claim_C3_witness :
    pyMatch lnC3 = some gC3 ∧ isHex40 gC3.ref = true ∧ processLine RC3 lnC3 = ([lnC3], false) :=
  ⟨by decide, by decide, claim_C3 RC3 lnC3 gC3 (by decide) (by decide)⟩

/-- Claim C7: an eligible candidate line whose reference resolves to the
nonempty commit string `C` is replaced by exactly two lines: an
indentation-matched audit comment containing the original `action@ref`
literally, then the original line with only the first `@`-run replaced by
`@C` — the decomposition equation shows every other character of the line is
preserved verbatim. -/
theorem claim_C7 (R : String → String → String → Option Json) (ln : String)
    (g : UsesGroups) (C : String)
    (hm : pyMatch ln = some g)
    (hdot : (List.isPrefixOf ['.'] g.action || List.isPrefixOf ['.', '/'] g.action) = false)
    (hhex : isHex40 g.ref = false)
    (hsl : g.action.contains '/' = true)
    (hR : R ⟨g.action.takeWhile (fun c => c != '/')⟩
            ⟨(g.action.dropWhile (fun c => c != '/')).tail⟩ ⟨g.ref⟩ = some (Json.str C))
    (hCne : C ≠ "") :
    ln.data = g.indent ++ g.pfx ++ g.action ++ '@' :: (g.ref ++ g.rest)
    ∧ processLine R ln
        = ([⟨g.indent ++ "# original uses: ".data ++ g.action ++ '@' :: g.ref ++ ['\n']⟩,
            ⟨g.indent ++ g.pfx ++ g.action ++ '@' :: (C.data ++ g.rest)⟩], true) := by
  obtain ⟨dash, ws2, kw, ws3, hdec, _⟩ := pyMatch_sound hm
  exact ⟨hdec,
    processLine_rewrite R ln g (Json.str C) hm hdot hhex hsl hR (pyTruthy_str hCne)⟩

def lnC7 : String := "  - uses: actions/checkout@v4 # pin me\n"

def gC7 : UsesGroups :=
  ⟨"  ".data, "- uses: ".data, "actions/checkout".data, "v4".data, " # pin me\n".data⟩

def RC7 : String → String → String → Option Json := fun o r ref =>
  if o = "actions" && r = "checkout" && ref = "v4" then some (Json.str shaA) else none

theorem claim_C7_witness :
    pyMatch lnC7 = some gC7
    ∧ RC7 ⟨gC7.action.takeWhile (fun c => c != '/')⟩
        ⟨(gC7.action.dropWhile (fun c => c != '/')).tail⟩ ⟨gC7.ref⟩ = some (Json.str shaA)
    ∧ (lnC7.data = gC7.indent ++ gC7.pfx ++ gC7.action ++ '@' :: (gC7.ref ++ gC7.rest)
       ∧ processLine RC7 lnC7
           = ([⟨gC7.indent ++ "# original uses: ".data ++ gC7.action ++ '@' :: gC7.ref ++ ['\n']⟩,
               ⟨gC7.indent ++ gC7.pfx ++ gC7.action ++ '@' :: (shaA.data ++ gC7.rest)⟩], true)) :=
  ⟨by decide, rfl,
    claim_C7 RC7 lnC7 gC7 shaA (by decide) (by decide) (by decide) (by decide) rfl (by decide)⟩

/-- Claim C4 (amended): provided every truthy value the resolver returns is a
40-hex string, the rewrite is idempotent — a second pass over a first pass's
output returns that output unchanged and reports no change (rewritten lines
are skipped as already pinned, audit comments are passthrough, and lines the
resolver failed on fail identically again). -/
theorem claim_C4 (R : String → String → String → Option Json)
    (hR : HexResolver R) (lines : List String) :
    processLines R (processLines R lines).1 = ((processLines R lines).1, false) :=
  processLines_idem R hR lines

def RC4 : String → String → String → Option Json := fun _ _ _ => some (Json.str shaA)

theorem claim_C4_witness :
    HexResolver RC4
    ∧ processLines RC4 (processLines RC4 ["- uses: a/b@v1\n"]).1
        = ((processLines RC4 ["- uses: a/b@v1\n"]).1, false) := by
  have hR : HexResolver RC4 := by
    intro o r ref v h htr
    injection h with h
    exact ⟨shaA, h.symm, by decide⟩
  exact ⟨hR, claim_C4 RC4 hR ["- uses: a/b@v1\n"]⟩

def RbadC4 : String → String → String → Option Json := fun _ _ ref =>
  if ref = "v1" then some (Json.str "v2")
  else if ref = "v2" then some (Json.str "v3")
  else none

/-- Claim C4, counterexample: with a resolver whose resolved values are not
40-hex strings (nothing in the code enforces the invariant — see C8), a
completed first pass rewrites `@v1` to `@v2`, and a second pass over that
output rewrites again and reports a change. -/
theorem claim_C4_counterexample :
    (processLines RbadC4 ["uses: o/r@v1\n"]).2 = true
    ∧ (processLines RbadC4 (processLines RbadC4 ["uses: o/r@v1\n"]).1).2 = true
    ∧ (processLines RbadC4 (processLines RbadC4 ["uses: o/r@v1\n"]).1).1
        ≠ (processLines RbadC4 ["uses: o/r@v1\n"]).1 :=
  ⟨by decide, by decide, by decide⟩

/-- Claim C10: the `changed` flag is true exactly when the output differs
from the input, equivalently exactly when the output is strictly longer (each
rewrite inserts an audit line); and the writes performed are the backup
followed by the rewrite when `changed` holds, nothing otherwise. -/
theorem claim_C10 (R : String → String → String → Option Json)
    (path : String) (lines : List String) :
    (processLines R lines).2 = decide ((processLines R lines).1 ≠ lines)
    ∧ (processLines R lines).2 = decide (lines.length < (processLines R lines).1.length)
    ∧ (processFile R path lines).2
        = (if (processLines R lines).2
           then [(path ++ ".bak", lines), (path, (processLines R lines).1)] else []) := by
  obtain ⟨h1, h2, h3⟩ := processLines_spec R lines
  refine ⟨?_, ?_, rfl⟩
  · cases hc : (processLines R lines).2
    · rw [h2 hc]
      simp
    · have hlt := h3 hc
      have hne : (processLines R lines).1 ≠ lines := by
        intro he
        rw [he] at hlt
        exact absurd hlt (Nat.lt_irrefl _)
      simp [hne]
  · cases hc : (processLines R lines).2
    · rw [h2 hc]
      simp
    · have hlt := h3 hc
      simp [hlt]
